import Mathlib

/-!
Verification development for the Operations-Copilot repository.

The embedding covers the two core modules:

* `modular_scripts/bulk_processor.py` — incremental ingestion of PDF
  invoices into the master CSV ledger (`bulk_process_invoices`,
  `get_processed_files`);
* `modular_scripts/analysis/anomaly_detector.py` — the two-pass anomaly
  scan over the ledger (`detect_financial_anomalies`).

Python/pandas values are embedded as follows: CSV cells that pandas
coerces with `pd.to_numeric(..., errors='coerce')` or
`pd.to_datetime(..., errors='coerce')` are modelled post-coercion as
`Option` values (`none` = NaN/NaT, i.e. the coercion failed or the cell
was absent); monetary amounts are `ℚ`; the external Gemini adapter is an
explicit function argument, so a run is deterministic in it; `print`
side effects are collected in a log list; the on-disk files touched by
the code (the master CSV and the report JSON) are explicit state.
-/

namespace OpsCopilot

/-- One data row of the master ledger CSV (`master_ops_log.csv`).
`vendor_name` and `total_amount` are the values after the coercions
performed by `detect_financial_anomalies` (`none` models NaN, that is a
missing cell or a failed numeric coercion); `date` is the value after
`pd.to_datetime(..., errors='coerce')` (`none` models NaT), dates being
embedded as naturals preserving their order. -/
structure LedgerRow where
  source_file : String
  vendor_name : Option String
  total_amount : Option ℚ
  date : Option ℕ
deriving DecidableEq

/-- The state of the master ledger CSV file as the two modules can
observe it.

* `missing`: the file does not exist (`os.path.exists` is false).
* `empty`: the file exists but has no content at all, so `pd.read_csv`
  raises `EmptyDataError`.
* `headerless rows`: the file holds data lines but no header line (this
  state arises when `to_csv(mode='a', header=False)` appends to a file
  that had no header: `header` is written only when the file does not
  exist).  On such a file `pd.read_csv` consumes the first data line as
  the header, so none of the expected column names is present
  (the data values, e.g. PDF file names, are not the literal strings
  `source_file` / `total_amount` — all concrete instances below keep
  that true), and any access such as `df['total_amount']` raises
  `KeyError`.
* `table hasSourceCol hasDateCol rows`: a proper CSV table whose header
  may or may not contain the `source_file` and `date` columns; the
  `vendor_name` and `total_amount` columns are present. -/
inductive LedgerFile where
  | missing : LedgerFile
  | empty : LedgerFile
  | headerless : List LedgerRow → LedgerFile
  | table : Bool → Bool → List LedgerRow → LedgerFile
deriving DecidableEq

/-- The rows a proper ledger table holds (`[]` for the degenerate file
states, where the detector never reaches the analysis passes). -/
def ledgerRows : LedgerFile → List LedgerRow
  | .table _ _ rows => rows
  | _ => []

/-! ### Anomaly detection (`anomaly_detector.py`, `detect_financial_anomalies`) -/

/-- A row that survived the cleaning step
`df['total_amount'] = pd.to_numeric(df['total_amount'], errors='coerce')`
followed by `df.dropna(subset=['total_amount', 'vendor_name'])`:
both `vendor_name` and `total_amount` are present. -/
structure CleanRow where
  vendor : String
  amount : ℚ
  date : Option ℕ
  source_file : String
deriving DecidableEq

/-- The cleaning step of `detect_financial_anomalies` (lines 84–87):
rows whose `total_amount` failed numeric coercion or whose
`vendor_name` is absent are dropped from the analysis frame. -/
def cleanRows (rows : List LedgerRow) : List CleanRow :=
  rows.filterMap fun r =>
    match r.vendor_name, r.total_amount with
    | some v, some a => some ⟨v, a, r.date, r.source_file⟩
    | _, _ => none

/-- The grouping key of the duplicate pass:
`df.duplicated(subset=['vendor_name', 'total_amount'], keep=False)`. -/
def dupKey (r : CleanRow) : String × ℚ := (r.vendor, r.amount)

/-- `df[df.duplicated(subset=['vendor_name','total_amount'], keep=False)]`:
`keep=False` marks a row exactly when its key occurs at least twice in
the frame, so the selection keeps, in original order, every row whose
`(vendor_name, total_amount)` pair is shared with some other row. -/
def duplicatedKeepFalse (c : List CleanRow) : List CleanRow :=
  c.filter fun r => 2 ≤ c.countP (fun s => decide (dupKey s = dupKey r))

/-- An entry of the anomaly report: a (cleaned) ledger row together with
the `anomaly_type` tag and, for spikes only, the `details` string. -/
structure Anomaly where
  row : CleanRow
  anomaly_type : String
  details : Option String
deriving DecidableEq

/-- Label attached by the duplicate pass:
`duplicates['anomaly_type'] = 'Potential Duplicate Billing'`. -/
def dupLabel : String := "Potential Duplicate Billing"

/-- The duplicate pass: every selected row becomes a report entry
tagged `Potential Duplicate Billing` (no `details` column is set). -/
def detectDuplicates (c : List CleanRow) : List Anomaly :=
  (duplicatedKeepFalse c).map fun r => ⟨r, dupLabel, none⟩

/-- Lexicographic comparison of two character lists by code point —
exactly how Python (and hence pandas) compares the vendor strings when
sorting: code-point by code-point, a proper prefix sorting first. -/
def charListLe : List Char → List Char → Bool
  | [], _ => true
  | _ :: _, [] => false
  | a :: as, b :: bs =>
    if a.toNat < b.toNat then true
    else if b.toNat < a.toNat then false
    else charListLe as bs

/-- Python string ordering on the underlying character lists. -/
def strLe (a b : String) : Prop := charListLe a.data b.data = true

instance : DecidableRel strLe := fun a b =>
  inferInstanceAs (Decidable (charListLe a.data b.data = true))

/-- Comparison of two date cells under `na_position='last'` (the
pandas default): real dates compare by value, and NaT sorts after
every real date (and ties with NaT). -/
def dateLe : Option ℕ → Option ℕ → Prop
  | some m, some n => m ≤ n
  | some _, none => True
  | none, some _ => False
  | none, none => True

/-- Boolean form of `dateLe`, used inside the sort comparator. -/
def dateLeB : Option ℕ → Option ℕ → Bool
  | some m, some n => m ≤ n
  | some _, none => true
  | none, some _ => false
  | none, none => true

/-- The total preorder realised by
`df.sort_values(by=['vendor_name', 'date'])`: vendor string first
(Python string order), then the date with NaT last. -/
def rowLeB (x y : CleanRow) : Bool :=
  if x.vendor == y.vendor then dateLeB x.date y.date
  else charListLe x.vendor.data y.vendor.data

/-- Propositional form of the sort comparator. -/
def rowLe (x y : CleanRow) : Prop := rowLeB x y = true

instance : DecidableRel rowLe := fun x y =>
  inferInstanceAs (Decidable (rowLeB x y = true))

/-- `df.sort_values(by=['vendor_name','date'], inplace=True)` — run only
when the frame has a `date` column.  pandas sorts on several keys with a
stable lexicographic sort; a stable sort by a total preorder has a
unique result, here realised by insertion sort. -/
def sortForSpikes (hasDateCol : Bool) (c : List CleanRow) : List CleanRow :=
  if hasDateCol then List.insertionSort rowLe c else c

/-- The records `df.groupby('vendor_name')` yields for vendor `v`:
the frame's rows for that vendor, in frame order. -/
def vendorGroup (src : List CleanRow) (v : String) : List CleanRow :=
  src.filter fun r => r.vendor == v

/-- The group keys `df.groupby('vendor_name')` iterates over: the
distinct vendors, in sorted key order (`sort=True` is the default). -/
def vendorsOf (src : List CleanRow) : List String :=
  List.insertionSort strLe (src.map (·.vendor)).dedup

/-- `series.mean()` over a list of rationals. -/
def listMean (l : List ℚ) : ℚ := l.sum / l.length

/-- Two-digit zero padding for the fractional part of a 2-decimal
rendering. -/
def pad2 (k : ℕ) : String := if k < 10 then "0" ++ toString k else toString k

/-- The Python format `f"{x:.2f}"`: the value rendered with exactly two
digits after the decimal point.  Rounding of exact half-cents is
modelled as round-half-up; no statement below evaluates it at a tie. -/
def fmt2 (q : ℚ) : String :=
  let n : ℤ := round (q * 100)
  let sgn := if n < 0 then "-" else ""
  let m : ℕ := n.natAbs
  sgn ++ toString (m / 100) ++ "." ++ pad2 (m % 100)

/-- The Python format `f"{t:.0%}"`: the threshold as a whole-number
percentage. -/
def pctLabel (t : ℚ) : String := toString (round (t * 100) : ℤ) ++ "%"

/-- `f'Price Spike (>{spike_threshold:.0%})'`. -/
def spikeType (t : ℚ) : String := "Price Spike (>" ++ pctLabel t ++ ")"

/-- `f"Amount {latest:.2f} vs. Avg {avg:.2f}"`. -/
def spikeDetails (amt avg : ℚ) : String :=
  "Amount " ++ fmt2 amt ++ " vs. Avg " ++ fmt2 avg

/-- The body of the price-spike loop for one vendor group (lines
110–119): when the group has more than one record, the mean of
`total_amount` over all but the last record is compared with the last
record's amount; on a strict excess beyond `avg * (1 + threshold)` that
single last record is flagged. -/
def spikeFor (t : ℚ) (g : List CleanRow) : List Anomaly :=
  if 2 ≤ g.length then
    let avg := listMean (g.dropLast.map (·.amount))
    match g.getLast? with
    | some last =>
        if avg * (1 + t) < last.amount then
          [⟨last, spikeType t, some (spikeDetails last.amount avg)⟩]
        else []
    | none => []
  else []

/-- The whole price-spike pass: iterate the vendor groups of the (by
then possibly sorted) frame and collect the per-group flags. -/
def detectSpikes (t : ℚ) (src : List CleanRow) : List Anomaly :=
  (vendorsOf src).flatMap fun v => spikeFor t (vendorGroup src v)

/-- The consolidated anomaly list of one detection run over a ledger
file: duplicates first, then spikes (`pd.concat(all_anomalies)`), and
no anomalies at all for the degenerate file states, in which
`detect_financial_anomalies` returns before the passes. -/
def anomaliesOfLedger (lf : LedgerFile) (t : ℚ) : List Anomaly :=
  match lf with
  | .table _ hasDateCol rows =>
      let c := cleanRows rows
      detectDuplicates c ++ detectSpikes t (sortForSpikes hasDateCol c)
  | _ => []

/-- The two files `detect_financial_anomalies` touches: it reads the
master CSV (`log`) and may rewrite the report JSON (`report`, `none`
when `anomalies_report.json` does not exist yet). -/
structure DataStore where
  log : LedgerFile
  report : Option (List Anomaly)
deriving DecidableEq

/-- The console messages of one detection run. -/
inductive DetLog where
  | missingLog : DetLog
  | emptyLog : DetLog
  | parseError : DetLog
  | foundDuplicates : ℕ → DetLog
  | foundSpikes : ℕ → DetLog
  | noAnomalies : DetLog
  | cooSummary : DetLog
  | savedReport : DetLog
deriving DecidableEq

/-- Result of one detection run: the file state afterwards plus the
log.  The Python function returns `None` on every path; its observable
behaviour is the file effect and the prints. -/
structure DetectResult where
  store : DataStore
  logs : List DetLog
deriving DecidableEq

/-- `detect_financial_anomalies(spike_threshold=0.20)`.  Missing,
empty or header-damaged log files make the function return before the
analysis (printing a diagnostic); on a proper table it cleans, runs the
two passes, and — only when at least one anomaly was found — overwrites
the report JSON with the consolidated list (`to_json(REPORT_FILE, ...)`).
When no anomaly is found it returns without touching the report file. -/
def detectFinancialAnomalies (s : DataStore) (t : ℚ) : DetectResult :=
  match s.log with
  | .missing => ⟨s, [.missingLog]⟩
  | .empty => ⟨s, [.emptyLog]⟩
  | .headerless _ => ⟨s, [.parseError]⟩
  | .table _ hasDateCol rows =>
      let c := cleanRows rows
      let dups := detectDuplicates c
      let spikes := detectSpikes t (sortForSpikes hasDateCol c)
      let all := dups ++ spikes
      if all.isEmpty then ⟨s, [.noAnomalies]⟩
      else
        ⟨⟨s.log, some all⟩,
          (if dups.isEmpty then [] else [.foundDuplicates dups.length]) ++
          (if spikes.isEmpty then [] else [.foundSpikes spikes.length]) ++
          [.cooSummary, .savedReport]⟩

/-! ### Ingestion (`bulk_processor.py`) -/

/-- The structured record `analyze_with_gemini` returns on success
(before `source_file` is stamped onto it).  Field values are embedded
post-coercion as in `LedgerRow`. -/
structure StructuredRecord where
  vendor_name : Option String
  total_amount : Option ℚ
  date : Option ℕ
deriving DecidableEq

/-- `structured_data['source_file'] = filename` — the stamping step. -/
def stampRecord (filename : String) (r : StructuredRecord) : LedgerRow :=
  ⟨filename, r.vendor_name, r.total_amount, r.date⟩

/-- What processing one document can come to, as observed inside the
per-file `try` block of `bulk_process_invoices`:

* `raised`: `extract_text_from_pdf` (or anything else in the block)
  raised — caught by the per-file `except`;
* `emptyText`: the extracted text was empty or whitespace-only;
* `geminiError msg`: `analyze_with_gemini` returned a dict with an
  `error` key;
* `ok rec`: a structured record came back. -/
inductive DocOutcome where
  | raised : DocOutcome
  | emptyText : DocOutcome
  | geminiError : String → DocOutcome
  | ok : StructuredRecord → DocOutcome
deriving DecidableEq

/-- The console messages of one ingestion run. -/
inductive IngLog where
  | configError : IngLog
  | prevProcessed : ℕ → IngLog
  | processing : String → IngLog
  | extractWarning : String → IngLog
  | geminiFail : String → String → IngLog
  | staged : String → IngLog
  | criticalError : String → IngLog
  | foundNew : ℕ → IngLog
  | appendedToLog : IngLog
  | noNewFiles : IngLog
deriving DecidableEq

/-- Everything `bulk_process_invoices` depends on: the two places the
credential is looked up (`st.secrets`, then the environment), the PDF
basenames found by `glob` in the data directory, and the composite
per-document behaviour of the extraction and Gemini calls. -/
structure IngestEnv where
  secretsKey : Option String
  envKey : Option String
  pdfFiles : List String
  adapter : String → DocOutcome

/-- Python truthiness of the looked-up credential: `if not api_key:`
treats both `None` and the empty string as absent. -/
def truthy : Option String → Option String
  | some s => if s = "" then none else some s
  | none => none

/-- The credential resolution of `bulk_process_invoices`: Streamlit
secrets first, environment variable as fallback, empty strings
rejected by truthiness at each step. -/
def resolveApiKey (env : IngestEnv) : Option String :=
  match truthy env.secretsKey with
  | some k => some k
  | none => truthy env.envKey

/-- `get_processed_files(log_path)`: the set of values of the
`source_file` column.  A missing file and an `EmptyDataError` give the
empty set; so does a readable file without a `source_file` column
(which is also what a headerless file looks like, since its first data
line is consumed as the header).  `set(df['source_file'].unique())` is
embedded as the deduplicated value list — membership and cardinality
agree with the Python set. -/
def getProcessedFiles : LedgerFile → List String
  | .missing => []
  | .empty => []
  | .headerless _ => []
  | .table true _ rows => (rows.map (·.source_file)).dedup
  | .table false _ _ => []

/-- The per-document loop of `bulk_process_invoices`: files whose name
is in the processed set are skipped silently; each remaining file is
processed inside its own `try`, a failure of any kind producing only a
log entry, a success staging the stamped record.  Returns the staged
records and the loop's log, both in file order. -/
def processCandidates (adapter : String → DocOutcome) (processed : List String) :
    List String → List LedgerRow × List IngLog
  | [] => ([], [])
  | f :: fs =>
    if f ∈ processed then processCandidates adapter processed fs
    else
      let rest := processCandidates adapter processed fs
      match adapter f with
      | .raised => (rest.1, .processing f :: .criticalError f :: rest.2)
      | .emptyText => (rest.1, .processing f :: .extractWarning f :: rest.2)
      | .geminiError m => (rest.1, .processing f :: .geminiFail f m :: rest.2)
      | .ok r => (stampRecord f r :: rest.1, .processing f :: .staged f :: rest.2)

/-- The batch append `new_df.to_csv(LOG_FILE, mode='a', header=header)`
with `header = not os.path.exists(LOG_FILE)`:

* no file → a fresh table is created, its header holding `source_file`
  first (the column reorder) together with the record columns;
* an existing but empty file → the rows are appended **without** a
  header (the file exists, so `header=False`), leaving a headerless
  data file;
* a headerless file → more headerless data lines;
* an existing table → the data lines are appended after the rows it
  already has (the write itself cannot fail on column mismatch; only a
  later read sees the misalignment). -/
def appendToLedger : LedgerFile → List LedgerRow → LedgerFile
  | .missing, new => .table true true new
  | .empty, new => .headerless new
  | .headerless rows, new => .headerless (rows ++ new)
  | .table h1 h2 rows, new => .table h1 h2 (rows ++ new)

/-- Result of one ingestion run.  `ret` is the Python return value:
every `return` in `bulk_process_invoices` is bare, so the function
returns `None` on every path; the field is typed against the
spec's claimed `(appended_count, errors)` contract to let the two be
compared.  `appended` is the batch of rows handed to `to_csv` (empty
when nothing was staged, in which case no write happens at all). -/
structure BulkResult where
  ledger : LedgerFile
  appended : List LedgerRow
  ret : Option (ℕ × ℕ)
  logs : List IngLog

/-- `bulk_process_invoices()`.  The credential is resolved first; when
absent the function prints the configuration error and returns with no
other effect.  Otherwise the processed set is read from the ledger, the
candidate files are processed one by one with per-file isolation, and
the staged records — if any — are appended to the ledger in one
write. -/
def bulkProcessInvoices (env : IngestEnv) (ledger : LedgerFile) : BulkResult :=
  match resolveApiKey env with
  | none => ⟨ledger, [], none, [.configError]⟩
  | some _ =>
    let processed := getProcessedFiles ledger
    let res := processCandidates env.adapter processed env.pdfFiles
    if res.1.isEmpty then
      ⟨ledger, [], none, .prevProcessed processed.length :: res.2 ++ [.noNewFiles]⟩
    else
      ⟨appendToLedger ledger res.1, res.1, none,
        .prevProcessed processed.length :: res.2 ++
          [.foundNew res.1.length, .appendedToLog]⟩

/-- The log entry a failing document produces (`none` for a success). -/
def docFailLog (f : String) : DocOutcome → Option IngLog
  | .raised => some (.criticalError f)
  | .emptyText => some (.extractWarning f)
  | .geminiError m => some (.geminiFail f m)
  | .ok _ => none

/-- Recogniser for the per-file failure log entries. -/
def isFailLog : IngLog → Bool
  | .extractWarning _ => true
  | .geminiFail _ _ => true
  | .criticalError _ => true
  | _ => false

/-! ### Concrete instances used by the claim theorems -/

/-- A concrete ingestion environment with one succeeding and one
failing document. -/
def envC8 : IngestEnv :=
  ⟨some "key", none, ["a.pdf", "b.pdf"],
    fun f => if f = "a.pdf" then .ok ⟨some "V", some 100, some 1⟩ else .raised⟩

/-- A concrete environment whose single document always processes
successfully. -/
def envSeq : IngestEnv :=
  ⟨some "k", none, ["a.pdf"], fun _ => .ok ⟨some "V", some 100, some 1⟩⟩

/-- A ledger row whose `total_amount` failed numeric coercion. -/
def badRow : LedgerRow := ⟨"bad.pdf", some "V", none, none⟩

/-- A stale anomaly-report entry left over from an earlier run. -/
def anomStale : Anomaly := ⟨⟨"V", 1, none, "f"⟩, dupLabel, none⟩

/-- A store whose ledger cleans to the empty set (its only row fails
coercion) while a nonempty report from an earlier run is on disk. -/
def storeStale : DataStore := ⟨.table true true [badRow], some [anomStale]⟩

/-- Ledger rows holding a duplicated `(vendor, amount)` pair plus one
row that fails numeric coercion. -/
def rowsDup : List LedgerRow :=
  [⟨"f1", some "V", some 100, none⟩, ⟨"f2", some "V", some 100, none⟩, badRow]

/-- The cleaned form of `rowsDup`. -/
def cleanDup : List CleanRow :=
  [⟨"V", 100, none, "f1"⟩, ⟨"V", 100, none, "f2"⟩]

/-- A ledger with a single clean row: the cleaned set is nonempty, yet
neither pass finds an anomaly (no duplicate pair, vendor group of
size one). -/
def rowsSingle : List LedgerRow := [⟨"f1", some "V", some 100, none⟩]

/-- Cleaned records of one vendor: two prior amounts of 100, then a
new record of 121, dated in that order. -/
def cSpike121 : List CleanRow :=
  [⟨"V", 100, some 1, "f1"⟩, ⟨"V", 100, some 2, "f2"⟩, ⟨"V", 121, some 3, "f3"⟩]

/-- Same two prior amounts with a new record of 119 instead. -/
def cSpike119 : List CleanRow :=
  [⟨"V", 100, some 1, "f1"⟩, ⟨"V", 100, some 2, "f2"⟩, ⟨"V", 119, some 3, "f3"⟩]

/-! ### Order lemmas for the sort comparator -/

theorem dateLeB_iff (a b : Option ℕ) : dateLeB a b = true ↔ dateLe a b := by
  cases a <;> cases b <;> simp [dateLeB, dateLe]

theorem charListLe_total : ∀ a b, charListLe a b = true ∨ charListLe b a = true
  | [], _ => Or.inl rfl
  | _ :: _, [] => Or.inr rfl
  | a :: as, b :: bs => by
      simp only [charListLe]
      rcases Nat.lt_trichotomy a.toNat b.toNat with h | h | h
      · left
        simp [h]
      · simp only [h, Nat.lt_irrefl, if_false]
        exact charListLe_total as bs
      · right
        simp [h]

theorem charListLe_trans :
    ∀ a b c, charListLe a b = true → charListLe b c = true → charListLe a c = true
  | [], _, _ => fun _ _ => rfl
  | _ :: _, [], _ => fun h _ => by simp [charListLe] at h
  | _ :: _, _ :: _, [] => fun _ h => by simp [charListLe] at h
  | a :: as, b :: bs, c :: cs => by
      simp only [charListLe]
      intro h1 h2
      have hab : ¬ b.toNat < a.toNat := by
        intro h
        simp [h, Nat.lt_asymm h] at h1
      have hbc : ¬ c.toNat < b.toNat := by
        intro h
        simp [h, Nat.lt_asymm h] at h2
      by_cases hac : a.toNat < c.toNat
      · simp [hac]
      · have e1 : a.toNat = b.toNat := by omega
        have e2 : b.toNat = c.toNat := by omega
        simp only [e1, Nat.lt_irrefl, if_false] at h1
        simp only [e2, Nat.lt_irrefl, if_false] at h2
        have hca : ¬ c.toNat < a.toNat := by omega
        rw [if_neg hac, if_neg hca]
        exact charListLe_trans as bs cs h1 h2

theorem charListLe_antisymm :
    ∀ a b, charListLe a b = true → charListLe b a = true → a = b
  | [], [] => fun _ _ => rfl
  | [], _ :: _ => fun _ h => by simp [charListLe] at h
  | _ :: _, [] => fun h _ => by simp [charListLe] at h
  | a :: as, b :: bs => by
      simp only [charListLe]
      intro h1 h2
      have hab : a.toNat = b.toNat := by
        rcases Nat.lt_trichotomy a.toNat b.toNat with h | h | h
        · simp [h, Nat.lt_asymm h] at h2
        · exact h
        · simp [h, Nat.lt_asymm h] at h1
      have ha : a = b := Char.ext (UInt32.ext hab)
      simp only [hab, Nat.lt_irrefl, if_false] at h1 h2
      rw [ha, charListLe_antisymm as bs h1 h2]

theorem dateLeB_total (a b : Option ℕ) : dateLeB a b = true ∨ dateLeB b a = true := by
  cases a with
  | none => cases b <;> simp [dateLeB]
  | some m =>
      cases b with
      | none => simp [dateLeB]
      | some n => simpa [dateLeB] using Nat.le_total m n

theorem dateLeB_trans {a b c : Option ℕ} (h1 : dateLeB a b = true)
    (h2 : dateLeB b c = true) : dateLeB a c = true := by
  cases a with
  | none => cases b <;> cases c <;> simp_all [dateLeB]
  | some m =>
      cases b with
      | none => cases c <;> simp_all [dateLeB]
      | some n =>
          cases c with
          | none => simp [dateLeB]
          | some k =>
              simp_all [dateLeB]
              omega

theorem rowLe_total : ∀ x y : CleanRow, rowLe x y ∨ rowLe y x := by
  intro x y
  unfold rowLe rowLeB
  by_cases h : x.vendor = y.vendor
  · rw [if_pos (beq_iff_eq.mpr h), if_pos (beq_iff_eq.mpr h.symm)]
    exact dateLeB_total _ _
  · rw [if_neg (fun hb => h (beq_iff_eq.mp hb)),
      if_neg (fun hb => h (beq_iff_eq.mp hb).symm)]
    exact charListLe_total _ _

theorem rowLe_trans : ∀ x y z : CleanRow, rowLe x y → rowLe y z → rowLe x z := by
  intro x y z h1 h2
  unfold rowLe rowLeB at *
  by_cases hxy : x.vendor = y.vendor
  · rw [if_pos (beq_iff_eq.mpr hxy)] at h1
    by_cases hyz : y.vendor = z.vendor
    · rw [if_pos (beq_iff_eq.mpr hyz)] at h2
      rw [if_pos (beq_iff_eq.mpr (hxy.trans hyz))]
      exact dateLeB_trans h1 h2
    · rw [if_neg (fun hb => hyz (beq_iff_eq.mp hb))] at h2
      have hxz : ¬ x.vendor = z.vendor := fun e => hyz (hxy.symm.trans e)
      rw [if_neg (fun hb => hxz (beq_iff_eq.mp hb)), hxy]
      exact h2
  · rw [if_neg (fun hb => hxy (beq_iff_eq.mp hb))] at h1
    by_cases hyz : y.vendor = z.vendor
    · rw [if_pos (beq_iff_eq.mpr hyz)] at h2
      have hxz : ¬ x.vendor = z.vendor := fun e => hxy (e.trans hyz.symm)
      rw [if_neg (fun hb => hxz (beq_iff_eq.mp hb)), ← hyz]
      exact h1
    · rw [if_neg (fun hb => hyz (beq_iff_eq.mp hb))] at h2
      by_cases hxz : x.vendor = z.vendor
      · exfalso
        apply hxy
        rw [← hxz] at h2
        exact (String.ext (charListLe_antisymm _ _ h2 h1)).symm
      · rw [if_neg (fun hb => hxz (beq_iff_eq.mp hb))]
        exact charListLe_trans _ _ _ h1 h2

/-- When two rows share a vendor, the sort comparator is exactly the
date comparison (ascending, missing dates last). -/
theorem rowLe_same_vendor {x y : CleanRow} (h : x.vendor = y.vendor) :
    rowLe x y ↔ dateLe x.date y.date := by
  unfold rowLe rowLeB
  rw [if_pos (beq_iff_eq.mpr h)]
  exact dateLeB_iff _ _

/-! ### Stability of the embedded sort -/

theorem filter_orderedInsert {α : Type} (r : α → α → Prop) [DecidableRel r]
    (p : α → Bool) (hp : ∀ x y, p x = true → p y = true → r x y) (a : α) :
    ∀ L, (List.orderedInsert r a L).filter p =
      if p a then a :: L.filter p else L.filter p
  | [] => by
      by_cases hpa : p a <;> simp [List.orderedInsert, List.filter, hpa]
  | b :: L => by
      simp only [List.orderedInsert]
      by_cases hr : r a b
      · rw [if_pos hr]
        by_cases hpa : p a <;> by_cases hpb : p b <;>
          simp [List.filter_cons, hpa, hpb]
      · rw [if_neg hr]
        by_cases hpb : p b
        · by_cases hpa : p a
          · exact absurd (hp a b hpa hpb) hr
          · rw [List.filter_cons_of_pos hpb, filter_orderedInsert r p hp a L,
              if_neg (by simp [hpa]), List.filter_cons_of_pos hpb,
              if_neg (by simp [hpa])]
        · rw [List.filter_cons_of_neg (by simp [hpb]),
            filter_orderedInsert r p hp a L, List.filter_cons_of_neg (by simp [hpb])]

theorem filter_insertionSort {α : Type} (r : α → α → Prop) [DecidableRel r]
    (p : α → Bool) (hp : ∀ x y, p x = true → p y = true → r x y) :
    ∀ l, (List.insertionSort r l).filter p = l.filter p
  | [] => rfl
  | a :: l => by
      simp only [List.insertionSort]
      rw [filter_orderedInsert r p hp a _, filter_insertionSort r p hp l]
      by_cases hpa : p a
      · rw [if_pos hpa, List.filter_cons_of_pos hpa]
      · rw [if_neg hpa, List.filter_cons_of_neg (by simp [hpa])]

/-! ### Characterisations of the per-document loop -/

theorem processCandidates_fst (adapter : String → DocOutcome) (processed : List String) :
    ∀ files, (processCandidates adapter processed files).1 =
      files.filterMap fun f =>
        if f ∈ processed then none
        else
          match adapter f with
          | .ok r => some (stampRecord f r)
          | _ => none
  | [] => rfl
  | f :: fs => by
      simp only [processCandidates, List.filterMap_cons]
      by_cases h : f ∈ processed
      · rw [if_pos h, if_pos h]
        exact processCandidates_fst adapter processed fs
      · rw [if_neg h, if_neg h]
        cases hadapt : adapter f <;>
          simp [hadapt, processCandidates_fst adapter processed fs]

theorem processCandidates_failLog (adapter : String → DocOutcome) (processed : List String) :
    ∀ files, ∀ f ∈ files, f ∉ processed →
      ∀ l, docFailLog f (adapter f) = some l →
        l ∈ (processCandidates adapter processed files).2
  | [], f, hf => absurd hf (List.not_mem_nil f)
  | g :: fs, f, hf => by
      intro hnp l hl
      simp only [processCandidates]
      rcases List.mem_cons.mp hf with he | ht
      · subst he
        rw [if_neg hnp]
        cases hadapt : adapter f with
        | raised =>
            rw [hadapt] at hl
            simp only [docFailLog, Option.some_inj] at hl
            subst hl
            simp
        | emptyText =>
            rw [hadapt] at hl
            simp only [docFailLog, Option.some_inj] at hl
            subst hl
            simp
        | geminiError m =>
            rw [hadapt] at hl
            simp only [docFailLog, Option.some_inj] at hl
            subst hl
            simp
        | ok r =>
            rw [hadapt] at hl
            simp [docFailLog] at hl
      · by_cases h : g ∈ processed
        · rw [if_pos h]
          exact processCandidates_failLog adapter processed fs f ht hnp l hl
        · rw [if_neg h]
          have ih := processCandidates_failLog adapter processed fs f ht hnp l hl
          cases hadapt : adapter g <;> simp [hadapt, ih]

theorem processCandidates_countP_fail (adapter : String → DocOutcome) (processed : List String) :
    ∀ files, ((processCandidates adapter processed files).2.countP isFailLog) =
      (files.filter fun f => decide (f ∉ processed)).countP
        (fun f => (docFailLog f (adapter f)).isSome)
  | [] => rfl
  | f :: fs => by
      simp only [processCandidates, List.filter_cons]
      by_cases h : f ∈ processed
      · rw [if_pos h]
        have hd : (decide (f ∉ processed)) = false := by simp [h]
        rw [hd]
        simp only [Bool.false_eq_true, if_false]
        exact processCandidates_countP_fail adapter processed fs
      · rw [if_neg h]
        have hd : (decide (f ∉ processed)) = true := by simp [h]
        rw [hd]
        simp only [if_true]
        cases hadapt : adapter f <;>
          simp [hadapt, docFailLog, isFailLog, List.countP_cons,
            processCandidates_countP_fail adapter processed fs]

/-- The Python function returns `None` on every control path. -/
theorem bulkProcessInvoices_ret_none (env : IngestEnv) (lf : LedgerFile) :
    (bulkProcessInvoices env lf).ret = none := by
  unfold bulkProcessInvoices
  cases resolveApiKey env
  · rfl
  · by_cases h : (processCandidates env.adapter (getProcessedFiles lf) env.pdfFiles).1.isEmpty <;>
      simp [h]

/-! ### Detection-side helper lemmas -/

theorem mem_of_getLast?_eq {α : Type} {l : List α} {a : α} (h : l.getLast? = some a) :
    a ∈ l := by
  obtain ⟨hne, heq⟩ := List.mem_getLast?_eq_getLast (Option.mem_def.mpr h)
  rw [heq]
  exact List.getLast_mem hne

theorem mem_sortForSpikes {hd : Bool} {c : List CleanRow} {x : CleanRow} :
    x ∈ sortForSpikes hd c ↔ x ∈ c := by
  cases hd
  · simp [sortForSpikes]
  · exact (List.perm_insertionSort rowLe c).mem_iff

theorem mem_spikeFor {t : ℚ} {g : List CleanRow} {a : Anomaly}
    (ha : a ∈ spikeFor t g) : a.row ∈ g := by
  unfold spikeFor at ha
  by_cases h2 : 2 ≤ g.length
  · rw [if_pos h2] at ha
    cases hg : g.getLast? with
    | none =>
        rw [hg] at ha
        simp at ha
    | some last =>
        rw [hg] at ha
        dsimp only at ha
        by_cases hcond :
            listMean (g.dropLast.map (·.amount)) * (1 + t) < last.amount
        · rw [if_pos hcond] at ha
          simp only [List.mem_singleton] at ha
          subst ha
          exact mem_of_getLast?_eq hg
        · rw [if_neg hcond] at ha
          simp at ha
  · rw [if_neg h2] at ha
    simp at ha

theorem anomaliesOfLedger_table (h1 h2 : Bool) (rows : List LedgerRow) (t : ℚ) :
    anomaliesOfLedger (.table h1 h2 rows) t =
      detectDuplicates (cleanRows rows) ++
        detectSpikes t (sortForSpikes h2 (cleanRows rows)) := rfl

/-- Detection never modifies the master ledger file. -/
theorem detect_log_unchanged (s : DataStore) (t : ℚ) :
    (detectFinancialAnomalies s t).store.log = s.log := by
  cases hl : s.log with
  | missing => simp [detectFinancialAnomalies, hl]
  | empty => simp [detectFinancialAnomalies, hl]
  | headerless rows => simp [detectFinancialAnomalies, hl]
  | table b1 b2 rows =>
      simp only [detectFinancialAnomalies, hl]
      split
      · exact hl
      · rfl

/-- The report file after a detection run: overwritten with the
consolidated list when it is nonempty, untouched otherwise. -/
theorem detect_report_eq (s : DataStore) (t : ℚ) :
    (detectFinancialAnomalies s t).store.report =
      if (anomaliesOfLedger s.log t).isEmpty then s.report
      else some (anomaliesOfLedger s.log t) := by
  cases hl : s.log with
  | missing => simp [detectFinancialAnomalies, anomaliesOfLedger, hl]
  | empty => simp [detectFinancialAnomalies, anomaliesOfLedger, hl]
  | headerless rows => simp [detectFinancialAnomalies, anomaliesOfLedger, hl]
  | table b1 b2 rows =>
      simp only [detectFinancialAnomalies, anomaliesOfLedger, hl]
      by_cases hE : (detectDuplicates (cleanRows rows) ++
          detectSpikes t (sortForSpikes b2 (cleanRows rows))).isEmpty = true
      · rw [if_pos hE, if_pos hE]
      · rw [if_neg hE, if_neg hE]

theorem anomaliesOfLedger_of_clean_nil {h1 h2 : Bool} {rows : List LedgerRow} {t : ℚ}
    (hc : cleanRows rows = []) : anomaliesOfLedger (.table h1 h2 rows) t = [] := by
  rw [anomaliesOfLedger_table, hc]
  cases h2 <;>
    simp [detectDuplicates, duplicatedKeepFalse, detectSpikes, vendorsOf, sortForSpikes]

/-- Concrete evaluation: `cleanDup` raises no price spike (the single
prior amount equals the latest). -/
theorem detectSpikes_cleanDup : detectSpikes (1/5) (sortForSpikes true cleanDup) = [] := by
  have hs : sortForSpikes true cleanDup = cleanDup := by decide
  have hv : vendorsOf cleanDup = ["V"] := by decide
  have hg : vendorGroup cleanDup "V" = cleanDup := by decide
  rw [hs]
  simp only [detectSpikes, hv, hg, List.flatMap_cons, List.flatMap_nil, List.append_nil]
  have hm : listMean (cleanDup.dropLast.map (·.amount)) = 100 := by
    norm_num [cleanDup, listMean]
  simp only [spikeFor, hm, cleanDup]
  norm_num [listMean]

/-- Concrete evaluation: the anomalies of the `rowsDup` ledger are the
two duplicate flags. -/
theorem anomaliesOfLedger_rowsDup :
    anomaliesOfLedger (.table true true rowsDup) (1/5) =
      [⟨⟨"V", 100, none, "f1"⟩, dupLabel, none⟩,
        ⟨⟨"V", 100, none, "f2"⟩, dupLabel, none⟩] := by
  rw [anomaliesOfLedger_table]
  have hc : cleanRows rowsDup = cleanDup := by decide
  rw [hc, detectSpikes_cleanDup, List.append_nil]
  decide

/-! ## Claims -/

/-- Claim C1: for every cleaned ledger, the duplicate pass selects
exactly the rows whose `(vendor_name, total_amount)` pair occurs in a
group of size at least 2 — all members of such a group, none of a
singleton group — and on the concrete records `[(V,100),(V,100),(V,200)]`
exactly the first two are flagged and the third is not. -/
theorem C1_duplicate_detection :
    (∀ (c : List CleanRow) (r : CleanRow),
        r ∈ duplicatedKeepFalse c ↔
          r ∈ c ∧ 2 ≤ (c.filter fun s => decide (dupKey s = dupKey r)).length) ∧
    detectDuplicates
        [⟨"V", 100, none, "f1"⟩, ⟨"V", 100, none, "f2"⟩, ⟨"V", 200, none, "f3"⟩] =
      [⟨⟨"V", 100, none, "f1"⟩, dupLabel, none⟩,
        ⟨⟨"V", 100, none, "f2"⟩, dupLabel, none⟩] := by
  constructor
  · intro c r
    unfold duplicatedKeepFalse
    rw [List.mem_filter]
    simp [List.countP_eq_length_filter]
  · decide

/-- Witness for C1: the first example row satisfies the group-size
characterisation and is flagged. -/
theorem C1_duplicate_witness :
    (⟨"V", 100, none, "f1"⟩ : CleanRow) ∈ duplicatedKeepFalse
      [⟨"V", 100, none, "f1"⟩, ⟨"V", 100, none, "f2"⟩, ⟨"V", 200, none, "f3"⟩] :=
  (C1_duplicate_detection.1
      [⟨"V", 100, none, "f1"⟩, ⟨"V", 100, none, "f2"⟩, ⟨"V", 200, none, "f3"⟩]
      ⟨"V", 100, none, "f1"⟩).mpr ⟨by decide, by decide⟩

/-- Unfolding of an ingestion run once the credential has resolved. -/
theorem bulkProcessInvoices_some (env : IngestEnv) (lf : LedgerFile) (k : String)
    (hk : resolveApiKey env = some k) :
    bulkProcessInvoices env lf =
      (let processed := getProcessedFiles lf
       let res := processCandidates env.adapter processed env.pdfFiles
       if res.1.isEmpty then
         ⟨lf, [], none, .prevProcessed processed.length :: res.2 ++ [.noNewFiles]⟩
       else
         ⟨appendToLedger lf res.1, res.1, none,
           .prevProcessed processed.length :: res.2 ++
             [.foundNew res.1.length, .appendedToLog]⟩ : BulkResult) := by
  unfold bulkProcessInvoices
  rw [hk]

/-- Claim C5: when no credential resolves from the secrets store or the
environment, ingestion aborts before any per-document processing and
before any ledger write: the ledger is untouched, nothing is appended,
and the single configuration-error message is the whole output.  The
run is a total function of its inputs — it cannot crash. -/
theorem C5_missing_credential :
    ∀ (env : IngestEnv) (lf : LedgerFile), resolveApiKey env = none →
      bulkProcessInvoices env lf = ⟨lf, [], none, [.configError]⟩ := by
  intro env lf h
  unfold bulkProcessInvoices
  rw [h]

/-- Witness for C5 at a concrete environment with no credential. -/
theorem C5_missing_credential_witness :
    resolveApiKey ⟨none, none, ["a.pdf"], fun _ => .raised⟩ = none ∧
    bulkProcessInvoices ⟨none, none, ["a.pdf"], fun _ => .raised⟩ .missing =
      ⟨.missing, [], none, [.configError]⟩ :=
  ⟨rfl, C5_missing_credential ⟨none, none, ["a.pdf"], fun _ => .raised⟩ .missing rfl⟩

/-- Claim C8, counterexample: a run that appends one record and sees
one per-file failure still returns `None` — `bulk_process_invoices`
has no `return` with a value, so no pair of counts is ever returned. -/
theorem C8_counterexample_no_count_pair :
    (bulkProcessInvoices envC8 .missing).appended.length = 1 ∧
    ((bulkProcessInvoices envC8 .missing).logs.countP isFailLog) = 1 ∧
    ¬ ∃ p : ℕ × ℕ, (bulkProcessInvoices envC8 .missing).ret = some p := by
  refine ⟨by decide, by decide, ?_⟩
  rintro ⟨p, hp⟩
  have h : (bulkProcessInvoices envC8 .missing).ret = none := by decide
  rw [h] at hp
  exact Option.noConfusion hp

/-- Claim C8 as amended: the ingest operation returns no value (`None`
on every path); when the credential resolves, the count of appended
records is reported in the log (`Found N new records to save`) whenever
it is nonzero, and each per-file failure produces exactly one failure
log entry — there is no aggregate failure count anywhere. -/
theorem C8_amended_return_contract :
    ∀ (env : IngestEnv) (lf : LedgerFile),
      (bulkProcessInvoices env lf).ret = none ∧
      (∀ k, resolveApiKey env = some k →
        ((bulkProcessInvoices env lf).appended.isEmpty = false →
            IngLog.foundNew (bulkProcessInvoices env lf).appended.length ∈
              (bulkProcessInvoices env lf).logs) ∧
        (bulkProcessInvoices env lf).logs.countP isFailLog =
          (env.pdfFiles.filter fun f => decide (f ∉ getProcessedFiles lf)).countP
            (fun f => (docFailLog f (env.adapter f)).isSome)) := by
  intro env lf
  refine ⟨bulkProcessInvoices_ret_none env lf, ?_⟩
  intro k hk
  rw [bulkProcessInvoices_some env lf k hk]
  by_cases h : (processCandidates env.adapter (getProcessedFiles lf) env.pdfFiles).1.isEmpty
  · simp only [h, if_true]
    constructor
    · intro habs
      simp at habs
    · simp only [List.countP_cons, List.countP_append, isFailLog]
      simp [processCandidates_countP_fail env.adapter (getProcessedFiles lf) env.pdfFiles,
        List.countP_cons, isFailLog]
  · simp only [h, Bool.false_eq_true, if_false]
    constructor
    · intro _
      simp
    · simp [processCandidates_countP_fail env.adapter (getProcessedFiles lf) env.pdfFiles,
        List.countP_cons, List.countP_append, isFailLog]

/-- Witness for C8's amended statement at a concrete run. -/
theorem C8_amended_witness :
    resolveApiKey envC8 = some "key" ∧
    (bulkProcessInvoices envC8 .missing).ret = none ∧
    (bulkProcessInvoices envC8 .missing).appended.isEmpty = false ∧
    IngLog.foundNew (bulkProcessInvoices envC8 .missing).appended.length ∈
      (bulkProcessInvoices envC8 .missing).logs ∧
    (bulkProcessInvoices envC8 .missing).logs.countP isFailLog =
      (envC8.pdfFiles.filter fun f => decide (f ∉ getProcessedFiles .missing)).countP
        (fun f => (docFailLog f (envC8.adapter f)).isSome) := by
  have h := C8_amended_return_contract envC8 .missing
  have hne : (bulkProcessInvoices envC8 .missing).appended.isEmpty = false := by decide
  exact ⟨rfl, h.1, hne, (h.2 "key" rfl).1 hne, (h.2 "key" rfl).2⟩

/-- Claim C4, counterexample: on a ledger whose cleaned record set is
empty, a detection run does not persist an empty report — it returns
before the write, so a nonempty report from an earlier run survives
unchanged on disk. -/
theorem C4_counterexample_stale_report :
    (detectFinancialAnomalies storeStale (1/5)).store.report = some [anomStale] ∧
    (detectFinancialAnomalies storeStale (1/5)).store.report ≠ some [] ∧
    (detectFinancialAnomalies storeStale (1/5)).store.report ≠ none := by
  refine ⟨by decide, by decide, by decide⟩

/-- Claim C4 as amended: a detection run persists the consolidated
anomaly sequence, fully overwriting the prior report file, only when
that sequence is nonempty; whenever no anomaly is found — in
particular on an empty cleaned record set, which yields no anomalies —
the run returns without raising (it is a total function) and without
touching the report file, so the prior report survives. -/
theorem C4_amended_report_persistence :
    ∀ (s : DataStore) (t : ℚ),
      ((anomaliesOfLedger s.log t).isEmpty = false →
          (detectFinancialAnomalies s t).store.report =
            some (anomaliesOfLedger s.log t)) ∧
      (anomaliesOfLedger s.log t = [] →
          (detectFinancialAnomalies s t).store.report = s.report) ∧
      (cleanRows (ledgerRows s.log) = [] → anomaliesOfLedger s.log t = []) := by
  intro s t
  refine ⟨?_, ?_, ?_⟩
  · intro hne
    rw [detect_report_eq, if_neg (by simp [hne])]
  · intro ha
    rw [detect_report_eq, ha]
    rfl
  · intro hc
    cases hl : s.log with
    | missing => rfl
    | empty => rfl
    | headerless rows => rfl
    | table b1 b2 rows =>
        apply anomaliesOfLedger_of_clean_nil
        rw [hl] at hc
        simpa [ledgerRows] using hc

/-- Witness for C4's amended statement: a run with anomalies
overwrites the report; a run that finds no anomalies over a nonempty
cleaned set leaves the stale report in place; and an empty cleaned set
yields no anomalies, again leaving the stale report in place. -/
theorem C4_amended_witness :
    (anomaliesOfLedger (LedgerFile.table true true rowsDup) (1/5)).isEmpty = false ∧
    (detectFinancialAnomalies ⟨.table true true rowsDup, none⟩ (1/5)).store.report =
      some (anomaliesOfLedger (LedgerFile.table true true rowsDup) (1/5)) ∧
    cleanRows rowsSingle ≠ [] ∧
    anomaliesOfLedger (.table true true rowsSingle) (1/5) = [] ∧
    (detectFinancialAnomalies
        ⟨.table true true rowsSingle, some [anomStale]⟩ (1/5)).store.report =
      some [anomStale] ∧
    cleanRows (ledgerRows storeStale.log) = [] ∧
    anomaliesOfLedger storeStale.log (1/5) = [] ∧
    (detectFinancialAnomalies storeStale (1/5)).store.report = storeStale.report := by
  have h1 := (C4_amended_report_persistence ⟨.table true true rowsDup, none⟩ (1/5)).1
  have hsingle := C4_amended_report_persistence
    ⟨.table true true rowsSingle, some [anomStale]⟩ (1/5)
  have hstale := C4_amended_report_persistence storeStale (1/5)
  have hne : (anomaliesOfLedger (LedgerFile.table true true rowsDup) (1/5)).isEmpty
      = false := by
    rw [anomaliesOfLedger_rowsDup]
    rfl
  have hsa : anomaliesOfLedger (.table true true rowsSingle) (1/5) = [] := by decide
  have hcl : cleanRows (ledgerRows storeStale.log) = [] := by decide
  have hsta : anomaliesOfLedger storeStale.log (1/5) = [] := hstale.2.2 hcl
  exact ⟨hne, h1 hne, by decide, hsa, hsingle.2.1 hsa, hcl, hsta, hstale.2.1 hsta⟩

/-- Claim C6: rows whose `total_amount` fails numeric coercion or
whose `vendor_name` is absent are excluded from both detection passes —
every flagged anomaly originates from a row of the cleaned frame, and
every cleaned row stems from a ledger row with both fields present —
while the ledger file itself is left unchanged by detection, so the
excluded rows remain in it. -/
theorem C6_exclusion_without_deletion :
    ∀ (s : DataStore) (t : ℚ),
      (detectFinancialAnomalies s t).store.log = s.log ∧
      (∀ cr ∈ cleanRows (ledgerRows s.log),
          ∃ r ∈ ledgerRows s.log, r.vendor_name = some cr.vendor ∧
            r.total_amount = some cr.amount ∧ r.date = cr.date ∧
            r.source_file = cr.source_file) ∧
      (∀ a ∈ anomaliesOfLedger s.log t, a.row ∈ cleanRows (ledgerRows s.log)) := by
  intro s t
  refine ⟨detect_log_unchanged s t, ?_, ?_⟩
  · intro cr hcr
    obtain ⟨r, hr, hf⟩ := List.mem_filterMap.mp hcr
    refine ⟨r, hr, ?_⟩
    cases hv : r.vendor_name with
    | none => rw [hv] at hf; simp at hf
    | some v =>
        cases hamt : r.total_amount with
        | none => rw [hv, hamt] at hf; simp at hf
        | some q =>
            rw [hv, hamt] at hf
            simp only [Option.some_inj] at hf
            subst hf
            exact ⟨rfl, rfl, rfl, rfl⟩
  · intro a ha
    cases hl : s.log with
    | missing => rw [hl] at ha; simp [anomaliesOfLedger] at ha
    | empty => rw [hl] at ha; simp [anomaliesOfLedger] at ha
    | headerless rows => rw [hl] at ha; simp [anomaliesOfLedger] at ha
    | table b1 b2 rows =>
        rw [hl] at ha
        rw [anomaliesOfLedger_table] at ha
        simp only [ledgerRows]
        rcases List.mem_append.mp ha with hd | hs
        · obtain ⟨r, hr, he⟩ := List.mem_map.mp hd
          have : a.row = r := by rw [← he]
          rw [this]
          exact (List.mem_filter.mp hr).1
        · obtain ⟨v, _, hv⟩ := List.mem_flatMap.mp hs
          have hrow := mem_spikeFor hv
          have hsrc : a.row ∈ sortForSpikes b2 (cleanRows rows) :=
            (List.mem_filter.mp hrow).1
          exact mem_sortForSpikes.mp hsrc

/-- Witness for C6 at a store holding a coercion-failing row next to a
duplicated pair. -/
theorem C6_witness :
    (detectFinancialAnomalies ⟨.table true true rowsDup, none⟩ (1/5)).store.log =
      LedgerFile.table true true rowsDup ∧
    (⟨"V", 100, none, "f1"⟩ : CleanRow) ∈ cleanRows (ledgerRows (.table true true rowsDup)) ∧
    (∃ r ∈ ledgerRows (LedgerFile.table true true rowsDup),
        r.vendor_name = some "V" ∧ r.total_amount = some 100 ∧
        r.date = none ∧ r.source_file = "f1") ∧
    (⟨⟨"V", 100, none, "f1"⟩, dupLabel, none⟩ : Anomaly) ∈
      anomaliesOfLedger (.table true true rowsDup) (1/5) ∧
    (⟨⟨"V", 100, none, "f1"⟩, dupLabel, none⟩ : Anomaly).row ∈
      cleanRows (ledgerRows (.table true true rowsDup)) := by
  have h := C6_exclusion_without_deletion ⟨.table true true rowsDup, none⟩ (1/5)
  have hmem : (⟨"V", 100, none, "f1"⟩ : CleanRow) ∈
      cleanRows (ledgerRows (LedgerFile.table true true rowsDup)) := by decide
  have hamem : (⟨⟨"V", 100, none, "f1"⟩, dupLabel, none⟩ : Anomaly) ∈
      anomaliesOfLedger (.table true true rowsDup) (1/5) := by
    rw [anomaliesOfLedger_rowsDup]
    simp
  exact ⟨h.1, hmem, h.2.1 _ hmem, hamem, h.2.2 _ hamem⟩

/-- Claim C9: before spike detection, each vendor's cleaned records are
sorted by date ascending (with missing dates after all real dates),
and the rows whose dates are missing keep their original relative
order with respect to one another — the sort is a deterministic
function, stable on date-less rows. -/
theorem C9_date_sort_order :
    ∀ (rows : List LedgerRow) (v : String),
      List.Pairwise (fun a b => dateLe a.date b.date)
        (vendorGroup (sortForSpikes true (cleanRows rows)) v) ∧
      ((vendorGroup (sortForSpikes true (cleanRows rows)) v).filter
          fun r => r.date.isNone) =
        ((cleanRows rows).filter fun r => r.vendor == v && r.date.isNone) := by
  intro rows v
  haveI : IsTotal CleanRow rowLe := ⟨rowLe_total⟩
  haveI : IsTrans CleanRow rowLe := ⟨rowLe_trans⟩
  constructor
  · have hsorted : List.Pairwise rowLe (List.insertionSort rowLe (cleanRows rows)) :=
      List.sorted_insertionSort rowLe (cleanRows rows)
    have hg : List.Pairwise rowLe (vendorGroup (sortForSpikes true (cleanRows rows)) v) :=
      hsorted.sublist (List.filter_sublist _)
    refine hg.imp_of_mem ?_
    intro a b hma hmb hr
    have hva : a.vendor = v := by
      have := (List.mem_filter.mp hma).2
      simpa [beq_iff_eq] using this
    have hvb : b.vendor = v := by
      have := (List.mem_filter.mp hmb).2
      simpa [beq_iff_eq] using this
    exact (rowLe_same_vendor (hva.trans hvb.symm)).mp hr
  · unfold vendorGroup sortForSpikes
    rw [if_pos rfl, List.filter_filter]
    rw [filter_insertionSort rowLe _ ?_ (cleanRows rows)]
    · apply List.filter_congr
      intro r _
      exact Bool.and_comm _ _
    · intro x y hx hy
      have hvx : x.date.isNone = true ∧ x.vendor = v := by
        simpa [beq_iff_eq, Bool.and_eq_true] using hx
      have hvy : y.date.isNone = true ∧ y.vendor = v := by
        simpa [beq_iff_eq, Bool.and_eq_true] using hy
      apply (rowLe_same_vendor (hvx.2.trans hvy.2.symm)).mpr
      rw [Option.isNone_iff_eq_none.mp hvx.1, Option.isNone_iff_eq_none.mp hvy.1]
      trivial

/-- Concrete rendering: `f"{121:.2f}"`. -/
theorem fmt2_121 : fmt2 121 = "121.00" := by
  have h : round ((121 : ℚ) * 100) = 12100 := by norm_num [round_eq]
  simp only [fmt2, h]
  rfl

/-- Concrete rendering: `f"{100:.2f}"`. -/
theorem fmt2_100 : fmt2 100 = "100.00" := by
  have h : round ((100 : ℚ) * 100) = 10000 := by norm_num [round_eq]
  simp only [fmt2, h]
  rfl

/-- Concrete rendering: the anomaly label at the default threshold. -/
theorem spikeType_fifth : spikeType (1/5) = "Price Spike (>20%)" := by
  have h : round ((1/5 : ℚ) * 100) = 20 := by norm_num [round_eq]
  simp only [spikeType, pctLabel, h]
  rfl

/-- Concrete rendering: the `details` string of the example spike. -/
theorem spikeDetails_121_100 : spikeDetails 121 100 = "Amount 121.00 vs. Avg 100.00" := by
  rw [spikeDetails, fmt2_121, fmt2_100]
  rfl

/-- The sort leaves the already-ordered example group unchanged. -/
theorem sort_cSpike121 : sortForSpikes true cSpike121 = cSpike121 := by decide

/-- The sort leaves the already-ordered example group unchanged. -/
theorem sort_cSpike119 : sortForSpikes true cSpike119 = cSpike119 := by decide

/-- A spike entry produced from vendor `w`'s group carries a row of
vendor `w`. -/
theorem spikeFor_vendor {t : ℚ} {src : List CleanRow} {w : String} {a : Anomaly}
    (ha : a ∈ spikeFor t (vendorGroup src w)) : a.row.vendor = w := by
  have hm := mem_spikeFor ha
  have := (List.mem_filter.mp hm).2
  simpa [beq_iff_eq] using this

/-- Over a duplicate-free vendor list, the whole spike pass contributes
at most one entry for any fixed vendor. -/
theorem spikes_flatMap_vendor_bound (t : ℚ) (src : List CleanRow) (v : String) :
    ∀ (l : List String), l.Nodup →
      ((l.flatMap fun w => spikeFor t (vendorGroup src w)).filter
          fun a => a.row.vendor == v).length ≤ 1
  | [], _ => by simp
  | w :: ws, hnd => by
      rw [List.flatMap_cons, List.filter_append, List.length_append]
      by_cases hv : w = v
      · subst hv
        have hrest : ((ws.flatMap fun u => spikeFor t (vendorGroup src u)).filter
            fun a => a.row.vendor == w) = [] := by
          apply List.filter_eq_nil_iff.mpr
          intro a ha
          obtain ⟨u, hu, hau⟩ := List.mem_flatMap.mp ha
          have := spikeFor_vendor hau
          have hne : u ≠ w := fun he => (List.nodup_cons.mp hnd).1 (he ▸ hu)
          simp [this, hne]
        rw [hrest]
        simp only [List.length_nil, Nat.add_zero]
        calc ((spikeFor t (vendorGroup src w)).filter
                fun a => a.row.vendor == w).length
            ≤ (spikeFor t (vendorGroup src w)).length := List.length_filter_le _ _
          _ ≤ 1 := by
              unfold spikeFor
              by_cases h2 : 2 ≤ (vendorGroup src w).length
              · rw [if_pos h2]
                cases hg : (vendorGroup src w).getLast? with
                | none => simp
                | some last =>
                    dsimp only
                    by_cases hcond :
                        listMean ((vendorGroup src w).dropLast.map (·.amount)) * (1 + t)
                          < last.amount
                    · rw [if_pos hcond]
                      simp
                    · rw [if_neg hcond]
                      simp
              · rw [if_neg h2]
                simp
      · have hhead : ((spikeFor t (vendorGroup src w)).filter
            fun a => a.row.vendor == v) = [] := by
          apply List.filter_eq_nil_iff.mpr
          intro a ha
          have := spikeFor_vendor ha
          simp [this, hv]
        rw [hhead]
        simp only [List.length_nil, Nat.zero_add]
        exact spikes_flatMap_vendor_bound t src v ws (List.nodup_cons.mp hnd).2

/-- The vendor iteration of the spike pass is duplicate-free. -/
theorem vendorsOf_nodup (src : List CleanRow) : (vendorsOf src).Nodup := by
  unfold vendorsOf
  exact (List.perm_insertionSort strLe _).nodup_iff.mpr (List.nodup_dedup _)

/-- Claim C2: the spike pass flags, per vendor group of at least two
records, at most the single last record of the date-sorted group; it
flags it exactly when its amount strictly exceeds the mean of all
earlier amounts scaled by `1 + spike_threshold`, labelling it with the
percentage label and a `details` string rendering amount and mean to
two decimal places.  Concretely, with prior amounts `[100, 100]` and
threshold `0.20`, a new record of `121` is flagged with details
`Amount 121.00 vs. Avg 100.00` and a new record of `119` is not. -/
theorem C2_price_spike :
    (∀ (t : ℚ) (src : List CleanRow) (v : String),
        ((detectSpikes t src).filter fun a => a.row.vendor == v).length ≤ 1) ∧
    (∀ (t : ℚ) (g : List CleanRow),
        (spikeFor t g).length ≤ 1 ∧
        (∀ a ∈ spikeFor t g, 2 ≤ g.length ∧ g.getLast? = some a.row ∧
            listMean (g.dropLast.map (·.amount)) * (1 + t) < a.row.amount ∧
            a.anomaly_type = spikeType t ∧
            a.details = some (spikeDetails a.row.amount
              (listMean (g.dropLast.map (·.amount))))) ∧
        (∀ last, g.getLast? = some last → 2 ≤ g.length →
            listMean (g.dropLast.map (·.amount)) * (1 + t) < last.amount →
            spikeFor t g =
              [⟨last, spikeType t,
                some (spikeDetails last.amount
                  (listMean (g.dropLast.map (·.amount))))⟩])) ∧
    detectSpikes (1/5) (sortForSpikes true cSpike121) =
      [⟨⟨"V", 121, some 3, "f3"⟩, "Price Spike (>20%)",
        some "Amount 121.00 vs. Avg 100.00"⟩] ∧
    detectSpikes (1/5) (sortForSpikes true cSpike119) = [] := by
  refine ⟨?_, ?_, ?_, ?_⟩
  · intro t src v
    unfold detectSpikes
    exact spikes_flatMap_vendor_bound t src v (vendorsOf src) (vendorsOf_nodup src)
  · intro t g
    refine ⟨?_, ?_, ?_⟩
    · unfold spikeFor
      by_cases h2 : 2 ≤ g.length
      · rw [if_pos h2]
        cases hg : g.getLast? with
        | none => simp
        | some last =>
            dsimp only
            by_cases hcond : listMean (g.dropLast.map (·.amount)) * (1 + t) < last.amount
            · rw [if_pos hcond]
              simp
            · rw [if_neg hcond]
              simp
      · rw [if_neg h2]
        simp
    · intro a ha
      unfold spikeFor at ha
      by_cases h2 : 2 ≤ g.length
      · rw [if_pos h2] at ha
        cases hg : g.getLast? with
        | none => rw [hg] at ha; simp at ha
        | some last =>
            rw [hg] at ha
            dsimp only at ha
            by_cases hcond : listMean (g.dropLast.map (·.amount)) * (1 + t) < last.amount
            · rw [if_pos hcond] at ha
              simp only [List.mem_singleton] at ha
              subst ha
              exact ⟨h2, rfl, hcond, rfl, rfl⟩
            · rw [if_neg hcond] at ha
              simp at ha
      · rw [if_neg h2] at ha
        simp at ha
    · intro last hlast h2 hcond
      unfold spikeFor
      rw [if_pos h2, hlast]
      dsimp only
      rw [if_pos hcond]
  · have hv : vendorsOf cSpike121 = ["V"] := by decide
    have hg : vendorGroup cSpike121 "V" = cSpike121 := by decide
    rw [sort_cSpike121]
    simp only [detectSpikes, hv, hg, List.flatMap_cons, List.flatMap_nil, List.append_nil]
    have hm : listMean (cSpike121.dropLast.map (·.amount)) = 100 := by
      norm_num [cSpike121, listMean]
    have hlast : cSpike121.getLast? = some ⟨"V", 121, some 3, "f3"⟩ := by decide
    unfold spikeFor
    rw [if_pos (by decide), hm, hlast]
    dsimp only
    rw [if_pos (by norm_num), spikeType_fifth, spikeDetails_121_100]
  · have hv : vendorsOf cSpike119 = ["V"] := by decide
    have hg : vendorGroup cSpike119 "V" = cSpike119 := by decide
    rw [sort_cSpike119]
    simp only [detectSpikes, hv, hg, List.flatMap_cons, List.flatMap_nil, List.append_nil]
    have hm : listMean (cSpike119.dropLast.map (·.amount)) = 100 := by
      norm_num [cSpike119, listMean]
    have hlast : cSpike119.getLast? = some ⟨"V", 119, some 3, "f3"⟩ := by decide
    unfold spikeFor
    rw [if_pos (by decide), hm, hlast]
    dsimp only
    rw [if_neg (by norm_num)]

/-- Witness for C2 at the example group: the hypotheses of the
flagging direction hold and the single flagged entry is the latest
record. -/
theorem C2_price_spike_witness :
    cSpike121.getLast? = some ⟨"V", 121, some 3, "f3"⟩ ∧
    2 ≤ cSpike121.length ∧
    listMean (cSpike121.dropLast.map (·.amount)) * (1 + 1/5) < (121 : ℚ) ∧
    spikeFor (1/5) cSpike121 =
      [⟨⟨"V", 121, some 3, "f3"⟩, spikeType (1/5),
        some (spikeDetails 121 (listMean (cSpike121.dropLast.map (·.amount))))⟩] := by
  have hm : listMean (cSpike121.dropLast.map (·.amount)) = 100 := by
    norm_num [cSpike121, listMean]
  have hlast : cSpike121.getLast? = some ⟨"V", 121, some 3, "f3"⟩ := by decide
  have hcond : listMean (cSpike121.dropLast.map (·.amount)) * (1 + 1/5) < (121 : ℚ) := by
    rw [hm]
    norm_num
  exact ⟨hlast, by decide,  hcond,
    ((C2_price_spike.2.1 (1/5) cSpike121).2.2 ⟨"V", 121, some 3, "f3"⟩ hlast (by decide) hcond)⟩

/-- The batch of records an ingestion run appends: the candidate files
not yet recorded, each mapped through the adapter, failures dropped. -/
theorem bulkProcessInvoices_appended (env : IngestEnv) (lf : LedgerFile) (k : String)
    (hk : resolveApiKey env = some k) :
    (bulkProcessInvoices env lf).appended =
      env.pdfFiles.filterMap fun f =>
        if f ∈ getProcessedFiles lf then none
        else
          match env.adapter f with
          | .ok r => some (stampRecord f r)
          | _ => none := by
  rw [bulkProcessInvoices_some env lf k hk]
  dsimp only
  by_cases h : (processCandidates env.adapter (getProcessedFiles lf) env.pdfFiles).1.isEmpty
  · rw [if_pos h]
    rw [← processCandidates_fst env.adapter (getProcessedFiles lf) env.pdfFiles]
    exact (List.isEmpty_iff.mp h).symm
  · rw [if_neg h]
    exact processCandidates_fst env.adapter (getProcessedFiles lf) env.pdfFiles

/-- The ledger an ingestion run leaves behind: untouched when nothing
was staged, one batch append otherwise. -/
theorem bulkProcessInvoices_ledger (env : IngestEnv) (lf : LedgerFile) (k : String)
    (hk : resolveApiKey env = some k) :
    (bulkProcessInvoices env lf).ledger =
      if (processCandidates env.adapter (getProcessedFiles lf) env.pdfFiles).1.isEmpty
      then lf
      else appendToLedger lf
        (processCandidates env.adapter (getProcessedFiles lf) env.pdfFiles).1 := by
  rw [bulkProcessInvoices_some env lf k hk]
  dsimp only
  by_cases h : (processCandidates env.adapter (getProcessedFiles lf) env.pdfFiles).1.isEmpty
  · rw [if_pos h, if_pos h]
  · rw [if_neg h, if_neg h]

/-- Claim C3, counterexample: starting from an existing-but-empty
ledger file, the first run appends its rows without a header
(`header = not os.path.exists(...)` is false), so the second run finds
no `source_file` column, treats nothing as processed, and appends the
same record again — ingestion is not idempotent for every ledger
state. -/
theorem C3_counterexample_empty_file :
    (bulkProcessInvoices envSeq .empty).appended =
      [⟨"a.pdf", some "V", some 100, some 1⟩] ∧
    (bulkProcessInvoices envSeq (bulkProcessInvoices envSeq .empty).ledger).appended =
      [⟨"a.pdf", some "V", some 100, some 1⟩] ∧
    (bulkProcessInvoices envSeq (bulkProcessInvoices envSeq .empty).ledger).appended ≠ [] := by
  exact ⟨by decide, by decide, by decide⟩

/-- Claim C3 as amended: running ingestion twice on an unchanged
document directory appends zero records the second time, provided the
initial ledger file is absent or is a table whose header carries the
`source_file` column — every filename recorded there is skipped, and a
file that failed the first run fails identically the second.  (When
the ledger file exists but is empty or headerless, the first append
writes no header, the `source_file` column is not found again, and the
second run re-appends — see the counterexample.) -/
theorem C3_amended_idempotence :
    ∀ (env : IngestEnv) (lf : LedgerFile),
      (lf = .missing ∨ ∃ hd rows, lf = .table true hd rows) →
      (bulkProcessInvoices env (bulkProcessInvoices env lf).ledger).appended = [] := by
  intro env lf hlf
  cases hk : resolveApiKey env with
  | none =>
      have hnone : ∀ X, (bulkProcessInvoices env X).appended = [] := by
        intro X
        unfold bulkProcessInvoices
        rw [hk]
      exact hnone _
  | some k =>
      rw [bulkProcessInvoices_ledger env lf k hk]
      by_cases hempty :
          (processCandidates env.adapter (getProcessedFiles lf) env.pdfFiles).1.isEmpty
      · rw [if_pos hempty]
        rw [bulkProcessInvoices_appended env lf k hk,
          ← processCandidates_fst env.adapter (getProcessedFiles lf) env.pdfFiles]
        exact List.isEmpty_iff.mp hempty
      · rw [if_neg hempty]
        obtain ⟨R, hP1, hP2⟩ : ∃ R : List LedgerRow,
            getProcessedFiles lf = (R.map (·.source_file)).dedup ∧
            getProcessedFiles (appendToLedger lf
                (processCandidates env.adapter (getProcessedFiles lf) env.pdfFiles).1) =
              ((R ++ (processCandidates env.adapter
                  (getProcessedFiles lf) env.pdfFiles).1).map (·.source_file)).dedup := by
          rcases hlf with h | ⟨hd, rows, h⟩
          · subst h
            exact ⟨[], rfl, rfl⟩
          · subst h
            exact ⟨rows, rfl, rfl⟩
        rw [bulkProcessInvoices_appended env _ k hk]
        apply List.filterMap_eq_nil_iff.mpr
        intro f hf
        by_cases hmem : f ∈ getProcessedFiles (appendToLedger lf
            (processCandidates env.adapter (getProcessedFiles lf) env.pdfFiles).1)
        · rw [if_pos hmem]
        · rw [if_neg hmem]
          have hfP1 : f ∉ getProcessedFiles lf := by
            intro hin
            apply hmem
            rw [hP2]
            apply List.mem_dedup.mpr
            rw [List.map_append]
            apply List.mem_append.mpr
            left
            rw [hP1] at hin
            exact List.mem_dedup.mp hin
          cases hadapt : env.adapter f with
          | ok r =>
              exfalso
              apply hmem
              rw [hP2]
              apply List.mem_dedup.mpr
              rw [List.map_append]
              apply List.mem_append.mpr
              right
              have hrec : stampRecord f r ∈
                  (processCandidates env.adapter (getProcessedFiles lf) env.pdfFiles).1 := by
                rw [processCandidates_fst env.adapter (getProcessedFiles lf) env.pdfFiles]
                exact List.mem_filterMap.mpr ⟨f, hf, by rw [if_neg hfP1, hadapt]⟩
              exact List.mem_map.mpr ⟨stampRecord f r, hrec, rfl⟩
          | raised => rfl
          | emptyText => rfl
          | geminiError m => rfl

/-- Witness for C3's amended statement: a fresh run starting with no
ledger file, repeated, appends nothing the second time. -/
theorem C3_amended_witness :
    ((LedgerFile.missing = LedgerFile.missing ∨
        ∃ hd rows, LedgerFile.missing = LedgerFile.table true hd rows) ∧
      (bulkProcessInvoices envSeq (bulkProcessInvoices envSeq .missing).ledger).appended
        = []) ∧
    (bulkProcessInvoices envSeq .missing).appended =
      [⟨"a.pdf", some "V", some 100, some 1⟩] :=
  ⟨⟨Or.inl rfl, C3_amended_idempotence envSeq .missing (Or.inl rfl)⟩, by decide⟩

/-- Claim C7: each document is processed in isolation — the appended
batch consists exactly of the stamped records of the successfully
structured candidate documents, so an unreadable file, empty extracted
text, or an adapter error drops only that document (never a partial
record, never the batch), and each such failure leaves its log entry.
The run itself is a total function of the environment: per-document
failures, including raised exceptions (modelled by
`DocOutcome.raised`), never escape the per-file handler. -/
theorem C7_per_document_isolation :
    ∀ (env : IngestEnv) (lf : LedgerFile) (k : String),
      resolveApiKey env = some k →
      (bulkProcessInvoices env lf).appended =
        (env.pdfFiles.filterMap fun f =>
          if f ∈ getProcessedFiles lf then none
          else
            match env.adapter f with
            | .ok r => some (stampRecord f r)
            | _ => none) ∧
      (∀ f ∈ env.pdfFiles, f ∉ getProcessedFiles lf →
        ∀ l, docFailLog f (env.adapter f) = some l →
          l ∈ (bulkProcessInvoices env lf).logs) := by
  intro env lf k hk
  constructor
  · exact bulkProcessInvoices_appended env lf k hk
  · intro f hf hnp l hl
    have hmem :=
      processCandidates_failLog env.adapter (getProcessedFiles lf) env.pdfFiles f hf hnp l hl
    rw [bulkProcessInvoices_some env lf k hk]
    dsimp only
    by_cases h : (processCandidates env.adapter (getProcessedFiles lf) env.pdfFiles).1.isEmpty
    · rw [if_pos h]
      simp [hmem]
    · rw [if_neg h]
      simp [hmem]

/-- Witness for C7: in a batch where `b.pdf` raises and `a.pdf`
succeeds, the failure only logs and the success is still appended. -/
theorem C7_witness :
    resolveApiKey envC8 = some "key" ∧
    "b.pdf" ∈ envC8.pdfFiles ∧
    "b.pdf" ∉ getProcessedFiles .missing ∧
    docFailLog "b.pdf" (envC8.adapter "b.pdf") = some (.criticalError "b.pdf") ∧
    IngLog.criticalError "b.pdf" ∈ (bulkProcessInvoices envC8 .missing).logs ∧
    (bulkProcessInvoices envC8 .missing).appended =
      [⟨"a.pdf", some "V", some 100, some 1⟩] := by
  have h := C7_per_document_isolation envC8 .missing "key" rfl
  exact ⟨rfl, by decide, by decide, by decide,
    h.2 "b.pdf" (by decide) (by decide) _ (by decide), by decide⟩

/-- Claim C10: when the ledger file exists and is readable but has no
`source_file` column, the processed set comes back empty, so no file
is skipped: every PDF in the directory is treated as new and every
successfully structured one — including any already recorded in the
ledger's rows — is appended again. -/
theorem C10_missing_source_column :
    ∀ (env : IngestEnv) (hd : Bool) (rows : List LedgerRow) (k : String),
      resolveApiKey env = some k →
      getProcessedFiles (.table false hd rows) = [] ∧
      (bulkProcessInvoices env (.table false hd rows)).appended =
        env.pdfFiles.filterMap fun f =>
          match env.adapter f with
          | .ok r => some (stampRecord f r)
          | _ => none := by
  intro env hd rows k hk
  refine ⟨rfl, ?_⟩
  rw [bulkProcessInvoices_appended env _ k hk]
  have hfun : (fun f =>
      if f ∈ getProcessedFiles (LedgerFile.table false hd rows) then none
      else
        match env.adapter f with
        | DocOutcome.ok r => some (stampRecord f r)
        | _ => none) =
      (fun f =>
        match env.adapter f with
        | DocOutcome.ok r => some (stampRecord f r)
        | _ => none) := by
    funext f
    rw [show getProcessedFiles (LedgerFile.table false hd rows) = [] from rfl]
    rw [if_neg (List.not_mem_nil f)]
  rw [hfun]

/-- Witness for C10: the ledger row for `a.pdf` is already present,
yet with no `source_file` column the file is reprocessed and its
record appended a second time. -/
theorem C10_witness :
    resolveApiKey envSeq = some "k" ∧
    getProcessedFiles (.table false true [⟨"a.pdf", some "V", some 100, some 1⟩]) = [] ∧
    (bulkProcessInvoices envSeq
        (.table false true [⟨"a.pdf", some "V", some 100, some 1⟩])).appended =
      [⟨"a.pdf", some "V", some 100, some 1⟩] := by
  have h := C10_missing_source_column envSeq true
    [⟨"a.pdf", some "V", some 100, some 1⟩] "k" rfl
  exact ⟨rfl, h.1, by decide⟩

end OpsCopilot
